import Mathlib

/-! The Pintos timer (`devices/timer.c`).

A shallow embedding of the 8254 timer driver: the tick counter, the
alarm-clock sleep path with its next-wake threshold `global_tick`, the
busy-wait calibration and the real-time sleep conversion.

* `int64_t` values are integers reduced by `wrap64`; `unsigned` values are
  naturals reduced by `wrap_u32`.
* Calls that leave the file (`outb`, `intr_register_ext`, `thread_tick`,
  `thread_awake`, `thread_sleep`) or that only burn time (`busy_wait`) are
  recorded, in order, in the `trace` of the state.
* `thread_sleep` and `thread_awake` live in `threads/thread.c`; the driver is
  parameterised by them (`Env`). `spec_env` instantiates them from the
  written description of the two scheduler operations alone; `storing_env`
  adds the update of `global_tick`, which `timer.c` itself never assigns.
-/

namespace Pintos

/-! ## Machine integers -/

/-- Largest `int64_t`; the initial value of `global_tick`. -/
def INT64_MAX : Int := 9223372036854775807

/-- The `int64_t` denoted by an unbounded integer (two's complement). -/
def wrap64 (x : Int) : Int := (x + 2 ^ 63) % 2 ^ 64 - 2 ^ 63

/-- The `unsigned` (32 bit) denoted by a natural number. -/
def wrap_u32 (x : Nat) : Nat := x % 2 ^ 32

/-- Representable as `int64_t`. -/
def fits64 (x : Int) : Prop := -(2 ^ 63) ≤ x ∧ x < 2 ^ 63

instance (x : Int) : Decidable (fits64 x) := by
  unfold fits64; infer_instance

/-! ## State -/

/-- A call made by the driver to code outside `timer.c`, or a busy-wait. -/
inductive Call where
  | outb (port : Nat) (data : Nat)
  | intr_register_ext (vec : Nat)
  | thread_tick
  | thread_awake (now : Int)
  | thread_sleep (wake : Int)
  | busy_wait (loops : Int)
  deriving DecidableEq

/-- A sleeping-thread entry of the scheduler: thread identity and wake tick. -/
structure Sleeper where
  tid : Nat
  wake_tick : Int
  deriving DecidableEq

/-- The state the scheduler collaborator can reach: `global_tick` is a
non-`static` global of `timer.c` (line 26), the sleep list is the
scheduler's own. -/
structure Shared where
  global_tick : Int
  sleep_list : List Sleeper
  deriving DecidableEq

/-- The state of the timer driver. `ticks` and `loops_per_tick` are `static`
in `timer.c`; `intr_on` is `intr_get_level () == INTR_ON`. -/
structure Timer where
  ticks : Int
  loops_per_tick : Nat
  intr_on : Bool
  shared : Shared
  trace : List Call
  deriving DecidableEq

/-- What `timer.c` takes from elsewhere: the macro `TIMER_FREQ`
(`devices/timer.h`) and the two scheduler entry points it calls
(`threads/thread.c`). `thread_sleep` acts on behalf of the calling thread,
whose identity is passed explicitly. -/
structure Env where
  TIMER_FREQ : Nat
  thread_sleep : Nat → Int → Shared → Shared
  thread_awake : Int → Shared → Shared × Int

/-- Minimum wake tick of a sleep list, `INT64_MAX` when it is empty. -/
def min_wake (l : List Sleeper) : Int :=
  l.foldr (fun s m => min s.wake_tick m) INT64_MAX

/-- Modelled from the spec: `thread_sleep` of `threads/thread.c` is missing.
The spec's `put_to_sleep(thread_id, wake_tick)` "moves the identified thread
out of the ready set into a sleeping set keyed by wake tick". -/
def spec_thread_sleep (self : Nat) (wake : Int) (s : Shared) : Shared :=
  { s with sleep_list := ⟨self, wake⟩ :: s.sleep_list }

/-- Modelled from the spec: `thread_awake` of `threads/thread.c` is missing.
The spec's `wake_due(current_tick)` "moves every thread whose wake tick is
`<= current_tick` into the ready set, and returns the minimum wake tick
remaining, or a sentinel if no thread remains sleeping". -/
def spec_thread_awake (now : Int) (s : Shared) : Shared × Int :=
  let rest := s.sleep_list.filter (fun t => decide (now < t.wake_tick))
  ({ s with sleep_list := rest }, min_wake rest)

/-- Modelled from the spec: the scheduler collaborator of sections 4.4 and 6,
with the default `TIMER_FREQ` of 100. -/
def spec_env : Env :=
  { TIMER_FREQ := 100
    thread_sleep := spec_thread_sleep
    thread_awake := spec_thread_awake }

/-- State after `timer.c` is loaded: `ticks = 0`, `global_tick = INT64_MAX`
(line 26), interrupts enabled, nobody sleeping. -/
def boot : Timer :=
  { ticks := 0
    loops_per_tick := 0
    intr_on := true
    shared := { global_tick := INT64_MAX, sleep_list := [] }
    trace := [] }

/-! ## `timer_init` -/

/-- Embeds `timer_init` (lines 44-55). `count` is a `uint16_t`, the data
argument of `outb` a `uint8_t`. -/
def timer_init (e : Env) (k : Timer) : Timer :=
  let count : Nat := (1193180 + e.TIMER_FREQ / 2) / e.TIMER_FREQ % 2 ^ 16
  { k with trace := k.trace ++
      [Call.outb 0x43 0x34,
       Call.outb 0x40 ((count &&& 0xff) % 2 ^ 8),
       Call.outb 0x40 ((count >>> 8) % 2 ^ 8),
       Call.intr_register_ext 0x20] }

/-- The port writes of a trace, in order. -/
def port_writes : List Call → List (Nat × Nat)
  | [] => []
  | Call.outb p d :: cs => (p, d) :: port_writes cs
  | _ :: cs => port_writes cs

/-! ## `timer_calibrate` -/

/-- How a run of a loop ends. -/
inductive Outcome (α : Type) where
  | done (a : α)
  | assert_failed
  | out_of_fuel
  deriving DecidableEq

/-- The doubling loop of `timer_calibrate` (lines 69-72), on `unsigned`. -/
def calibrate_double (too_many_loops : Nat → Bool) : Nat → Nat → Outcome Nat
  | 0, _ => Outcome.out_of_fuel
  | fuel + 1, loops_per_tick =>
    if !too_many_loops (wrap_u32 (loops_per_tick <<< 1)) then
      let loops_per_tick := wrap_u32 (loops_per_tick <<< 1)
      if loops_per_tick != 0 then calibrate_double too_many_loops fuel loops_per_tick
      else Outcome.assert_failed
    else Outcome.done loops_per_tick

/-- The refinement loop of `timer_calibrate` (lines 76-78): every probe is
`high_bit | test_bit`. -/
def calibrate_refine (too_many_loops : Nat → Bool) (high_bit : Nat) :
    Nat → Nat → Nat → Outcome Nat
  | 0, _, _ => Outcome.out_of_fuel
  | fuel + 1, test_bit, loops_per_tick =>
    if test_bit != high_bit >>> 10 then
      let loops_per_tick :=
        if !too_many_loops (high_bit ||| test_bit) then loops_per_tick ||| test_bit
        else loops_per_tick
      calibrate_refine too_many_loops high_bit fuel (test_bit >>> 1) loops_per_tick
    else Outcome.done loops_per_tick

/-- Embeds `timer_calibrate` (lines 59-81) over a probe `too_many_loops`;
the result is the new `loops_per_tick`. -/
def timer_calibrate (too_many_loops : Nat → Bool) (fuel : Nat) (k : Timer) : Outcome Timer :=
  if k.intr_on = false then Outcome.assert_failed
  else
    match calibrate_double too_many_loops fuel (wrap_u32 (1 <<< 10)) with
    | Outcome.done high_bit =>
      match calibrate_refine too_many_loops high_bit fuel (high_bit >>> 1) high_bit with
      | Outcome.done r => Outcome.done { k with loops_per_tick := r }
      | Outcome.assert_failed => Outcome.assert_failed
      | Outcome.out_of_fuel => Outcome.out_of_fuel
    | Outcome.assert_failed => Outcome.assert_failed
    | Outcome.out_of_fuel => Outcome.out_of_fuel

/-- The deterministic simulated tick source: `loops` iterations cross a tick
boundary exactly when `loops > L`. -/
def sim_too_many_loops (L : Nat) (loops : Nat) : Bool := decide (loops > L)

/-! ## Tick counter -/

/-- Embeds `timer_ticks` (lines 85-92): the read is bracketed by
`intr_disable` / `intr_set_level`. -/
def timer_ticks (k : Timer) : Int × Timer :=
  let old_level := k.intr_on
  let k := { k with intr_on := false }
  let t := k.ticks
  (t, { k with intr_on := old_level })

/-- Embeds `timer_elapsed` (lines 98-101). -/
def timer_elapsed (start : Int) (k : Timer) : Int × Timer :=
  let r := timer_ticks k
  (wrap64 (r.1 - start), r.2)

/-- Embeds `timer_interrupt` (lines 177-196). `thread_tick` only accounts
CPU usage (comment at the call) and is recorded in the trace; the value
returned by `thread_awake` is not used. -/
def timer_interrupt (e : Env) (k : Timer) : Timer :=
  let k := { k with ticks := wrap64 (k.ticks + 1) }
  let k := { k with trace := k.trace ++ [Call.thread_tick] }
  if k.shared.global_tick ≤ k.ticks then
    { k with shared := (e.thread_awake k.ticks k.shared).1
             trace := k.trace ++ [Call.thread_awake k.ticks] }
  else k

/-- Delivery of `n` timer interrupts in a row. -/
def deliver (e : Env) : Nat → Timer → Timer
  | 0, k => k
  | n + 1, k => deliver e n (timer_interrupt e k)

/-! ## `timer_sleep` -/

/-- Where timer interrupts preempt one run of `timer_sleep`, and the order
in which the compiler evaluates the two operands of the wake-tick
expression `timer_ticks () + ticks - timer_elapsed (start)`. -/
structure Preempt where
  /-- Interrupts between the read of `start` and the read in the condition. -/
  before_check : Nat
  /-- Interrupts between the condition and the first operand read. -/
  before_operands : Nat
  /-- Interrupts between the two operand reads. -/
  between_operands : Nat
  /-- The call `timer_elapsed (start)` is evaluated before `timer_ticks ()`. -/
  elapsed_first : Bool
  deriving DecidableEq

/-- No preemption, operands left to right. -/
def Preempt.quiet : Preempt := ⟨0, 0, 0, false⟩

/-- The call `thread_sleep (wake)` made by thread `self`. -/
def call_thread_sleep (e : Env) (self : Nat) (wake : Int) (k : Timer) : Timer :=
  { k with shared := e.thread_sleep self wake k.shared
           trace := k.trace ++ [Call.thread_sleep wake] }

/-- Embeds `timer_sleep` (lines 107-148), run by thread `self` under the
preemption pattern `p`. `none` is the failed `ASSERT`. -/
def timer_sleep (e : Env) (self : Nat) (p : Preempt) (ticks : Int) (k : Timer) :
    Option Timer :=
  let r := timer_ticks k
  let start := r.1
  let k := r.2
  if k.intr_on = false then Option.none
  else
    let k := deliver e p.before_check k
    let c := timer_elapsed start k
    if c.1 < ticks then
      let k := deliver e p.before_operands c.2
      if p.elapsed_first then
        let b := timer_elapsed start k
        let k := deliver e p.between_operands b.2
        let a := timer_ticks k
        some (call_thread_sleep e self (wrap64 (wrap64 (a.1 + ticks) - b.1)) a.2)
      else
        let a := timer_ticks k
        let k := deliver e p.between_operands a.2
        let b := timer_elapsed start k
        some (call_thread_sleep e self (wrap64 (wrap64 (a.1 + ticks) - b.1)) b.2)
    else some c.2

/-! ## Real-time sleeps -/

/-- Embeds `busy_wait` (lines 231-235): the call is recorded with its
argument. -/
def busy_wait (loops : Int) (k : Timer) : Timer :=
  { k with trace := k.trace ++ [Call.busy_wait loops] }

/-- The loop `while (loops-- > 0) barrier ();` of `busy_wait`: the number of
times the body runs. -/
def busy_wait_loop : Nat → Int → Nat
  | 0, _ => 0
  | fuel + 1, loops => if loops > 0 then busy_wait_loop fuel (loops - 1) + 1 else 0

/-- Number of times the body of the loop in `busy_wait (loops)` runs; the
loop counts `loops` down, so `loops` iterations of fuel are enough. -/
def busy_wait_iterations (loops : Int) : Nat := busy_wait_loop loops.toNat loops

/-- The tick count `num * TIMER_FREQ / denom` of `real_time_sleep`
(line 247), in `int64_t` arithmetic. -/
def sleep_ticks (F : Nat) (num denom : Int) : Int :=
  wrap64 ((wrap64 (num * (F : Int))).tdiv denom)

/-- The argument `loops_per_tick * num / 1000 * TIMER_FREQ / (denom / 1000)`
of `busy_wait` (line 260), left to right in `int64_t` arithmetic. -/
def busy_loops (F : Nat) (loops_per_tick : Nat) (num denom : Int) : Int :=
  let m1 := wrap64 ((loops_per_tick : Int) * num)
  let d1 := wrap64 (m1.tdiv 1000)
  let m2 := wrap64 (d1 * (F : Int))
  wrap64 (m2.tdiv (denom.tdiv 1000))

/-- The same expression over the unbounded integers. -/
def busy_loops_exact (F : Nat) (loops_per_tick : Nat) (num denom : Int) : Int :=
  ((((loops_per_tick : Int) * num).tdiv 1000) * (F : Int)).tdiv (denom.tdiv 1000)

/-- Embeds `real_time_sleep` (lines 239-262). `none` is a failed `ASSERT`. -/
def real_time_sleep (e : Env) (self : Nat) (p : Preempt) (num denom : Int) (k : Timer) :
    Option Timer :=
  let ticks := sleep_ticks e.TIMER_FREQ num denom
  if k.intr_on = false then Option.none
  else if ticks > 0 then timer_sleep e self p ticks k
  else if denom.tmod 1000 ≠ 0 then Option.none
  else some (busy_wait (busy_loops e.TIMER_FREQ k.loops_per_tick num denom) k)

/-- Embeds `timer_msleep` (lines 151-154). -/
def timer_msleep (e : Env) (self : Nat) (p : Preempt) (ms : Int) (k : Timer) : Option Timer :=
  real_time_sleep e self p ms 1000 k

/-- Embeds `timer_usleep` (lines 157-160). -/
def timer_usleep (e : Env) (self : Nat) (p : Preempt) (us : Int) (k : Timer) : Option Timer :=
  real_time_sleep e self p us (1000 * 1000) k

/-- Embeds `timer_nsleep` (lines 163-166). -/
def timer_nsleep (e : Env) (self : Nat) (p : Preempt) (ns : Int) (k : Timer) : Option Timer :=
  real_time_sleep e self p ns (1000 * 1000 * 1000) k

/-! ## Call sequences -/

/-- The operations of the timer API, and the interrupt. -/
inductive Op where
  | timer_ticks
  | timer_elapsed (start : Int)
  | timer_sleep (self : Nat) (p : Preempt) (ticks : Int)
  | timer_msleep (self : Nat) (p : Preempt) (ms : Int)
  | timer_usleep (self : Nat) (p : Preempt) (us : Int)
  | timer_nsleep (self : Nat) (p : Preempt) (ns : Int)
  | timer_interrupt
  deriving DecidableEq

/-- State after one operation; `none` is a failed `ASSERT` (kernel panic). -/
def step (e : Env) : Op → Timer → Option Timer
  | Op.timer_ticks, k => some (timer_ticks k).2
  | Op.timer_elapsed start, k => some (timer_elapsed start k).2
  | Op.timer_sleep self p n, k => timer_sleep e self p n k
  | Op.timer_msleep self p n, k => timer_msleep e self p n k
  | Op.timer_usleep self p n, k => timer_usleep e self p n k
  | Op.timer_nsleep self p n, k => timer_nsleep e self p n k
  | Op.timer_interrupt, k => some (timer_interrupt e k)

/-- State after a sequence of operations. -/
def exec (e : Env) : List Op → Timer → Option Timer
  | [], k => some k
  | op :: ops, k =>
    match step e op k with
    | some k2 => exec e ops k2
    | Option.none => Option.none

/-- The values returned by the `timer_ticks` operations of a sequence, in
order; nothing is read after a kernel panic. -/
def observe (e : Env) : List Op → Timer → List Int
  | [], _ => []
  | op :: ops, k =>
    match step e op k with
    | some k2 =>
      match op with
      | Op.timer_ticks => (timer_ticks k).1 :: observe e ops k2
      | _ => observe e ops k2
    | Option.none => []

/-- Timer interrupts that preempt an operation (at most). -/
def preemptions : Op → Nat
  | Op.timer_sleep _ p _ => p.before_check + p.before_operands + p.between_operands
  | Op.timer_msleep _ p _ => p.before_check + p.before_operands + p.between_operands
  | Op.timer_usleep _ p _ => p.before_check + p.before_operands + p.between_operands
  | Op.timer_nsleep _ p _ => p.before_check + p.before_operands + p.between_operands
  | _ => 0

/-- Upper bound on the runs of the interrupt handler during one operation. -/
def handler_bound : Op → Nat
  | Op.timer_interrupt => 1
  | op => preemptions op

/-- Upper bound on the handler runs of a sequence of operations. -/
def interrupt_budget : List Op → Nat
  | [] => 0
  | op :: ops => handler_bound op + interrupt_budget ops

/-- Runs of the interrupt handler recorded in a trace (one `thread_tick`
each). -/
def handler_runs : List Call → Nat
  | [] => 0
  | Call.thread_tick :: cs => handler_runs cs + 1
  | _ :: cs => handler_runs cs

/-- Arguments of the `thread_awake` calls of a trace, in order. -/
def awake_calls : List Call → List Int
  | [] => []
  | Call.thread_awake now :: cs => now :: awake_calls cs
  | _ :: cs => awake_calls cs

/-- Arguments of the `thread_sleep` calls of a trace, in order. -/
def sleep_calls : List Call → List Int
  | [] => []
  | Call.thread_sleep w :: cs => w :: sleep_calls cs
  | _ :: cs => sleep_calls cs

/-- Arguments of the `busy_wait` calls of a trace, in order. -/
def busy_calls : List Call → List Int
  | [] => []
  | Call.busy_wait n :: cs => n :: busy_calls cs
  | _ :: cs => busy_calls cs

/-- What a run of code does to the counter, the handler count and the
interrupt level. -/
def advances (k k2 : Timer) (d : Nat) : Prop :=
  k2.ticks = k.ticks + (d : Int)
  ∧ handler_runs k2.trace = handler_runs k.trace + d
  ∧ k2.intr_on = k.intr_on

/-! ## Concrete states used below -/

/-- One thread sleeping until tick 60, threshold 60, counter at 59. -/
def due_state : Timer :=
  { boot with
    ticks := 59
    shared := { global_tick := 60, sleep_list := [⟨1, 60⟩] } }

/-- Counter at 50, nobody sleeping. -/
def at_tick_50 : Timer := { boot with ticks := 50 }

/-- One timer interrupt between the two operand reads of the wake-tick
expression, operands evaluated left to right. -/
def tick_between_operands : Preempt := ⟨0, 0, 1, false⟩

/-- Two reads of the counter around an interrupt, a sleep and another
interrupt. -/
def sample_ops : List Op :=
  [Op.timer_ticks, Op.timer_interrupt, Op.timer_sleep 1 Preempt.quiet 10,
   Op.timer_interrupt, Op.timer_ticks]

/-- Calibrated to 5000 loops per tick. -/
def calibrated_5000 : Timer := { boot with loops_per_tick := 5000 }

/-! ## Basic facts -/

theorem port_writes_append (a b : List Call) :
    port_writes (a ++ b) = port_writes a ++ port_writes b := by
  induction a with
  | nil => rfl
  | cons c cs ih => cases c <;> simp [port_writes, ih]

theorem handler_runs_append (a b : List Call) :
    handler_runs (a ++ b) = handler_runs a + handler_runs b := by
  induction a with
  | nil => simp [handler_runs]
  | cons c cs ih => cases c <;> simp [handler_runs, ih, Nat.add_right_comm]

theorem awake_calls_append (a b : List Call) :
    awake_calls (a ++ b) = awake_calls a ++ awake_calls b := by
  induction a with
  | nil => rfl
  | cons c cs ih => cases c <;> simp [awake_calls, ih]

theorem sleep_calls_append (a b : List Call) :
    sleep_calls (a ++ b) = sleep_calls a ++ sleep_calls b := by
  induction a with
  | nil => rfl
  | cons c cs ih => cases c <;> simp [sleep_calls, ih]

theorem busy_calls_append (a b : List Call) :
    busy_calls (a ++ b) = busy_calls a ++ busy_calls b := by
  induction a with
  | nil => rfl
  | cons c cs ih => cases c <;> simp [busy_calls, ih]

theorem wrap64_of_fits {x : Int} (h : fits64 x) : wrap64 x = x := by
  unfold fits64 at h
  unfold wrap64
  omega

theorem wrap64_fits (x : Int) : fits64 (wrap64 x) := by
  unfold fits64 wrap64
  omega

theorem timer_ticks_state (k : Timer) : (timer_ticks k).2 = k := rfl

theorem timer_ticks_value (k : Timer) : (timer_ticks k).1 = k.ticks := rfl

theorem timer_elapsed_state (start : Int) (k : Timer) : (timer_elapsed start k).2 = k := rfl

theorem timer_elapsed_value (start : Int) (k : Timer) :
    (timer_elapsed start k).1 = wrap64 (k.ticks - start) := rfl

/-! ## `timer_init` -/

/-- C9: for every `TIMER_FREQ` the compile-time guards admit (19 to 1000),
`timer_init` writes exactly (0x43, 0x34), (0x40, c mod 256), (0x40, c div 256)
in that order, where `c = (1193180 + F/2) / F` is 1193180 / F rounded to
nearest; `c` fits in 16 bits, so the `uint16_t` store keeps it and
low + 256 * high = c. -/
theorem timer_init_programs_pit (e : Env) (k : Timer)
    (hlo : 19 ≤ e.TIMER_FREQ) (hhi : e.TIMER_FREQ ≤ 1000) :
    (timer_init e k).trace = k.trace ++
        [Call.outb 0x43 0x34,
         Call.outb 0x40 ((1193180 + e.TIMER_FREQ / 2) / e.TIMER_FREQ % 256),
         Call.outb 0x40 ((1193180 + e.TIMER_FREQ / 2) / e.TIMER_FREQ / 256),
         Call.intr_register_ext 0x20]
    ∧ port_writes (timer_init e k).trace = port_writes k.trace ++
        [(0x43, 0x34),
         (0x40, (1193180 + e.TIMER_FREQ / 2) / e.TIMER_FREQ % 256),
         (0x40, (1193180 + e.TIMER_FREQ / 2) / e.TIMER_FREQ / 256)]
    ∧ (1193180 + e.TIMER_FREQ / 2) / e.TIMER_FREQ ≤ 65535
    ∧ (1193180 + e.TIMER_FREQ / 2) / e.TIMER_FREQ % 256
        + 256 * ((1193180 + e.TIMER_FREQ / 2) / e.TIMER_FREQ / 256)
        = (1193180 + e.TIMER_FREQ / 2) / e.TIMER_FREQ
    ∧ 2 * (1193180 - (1193180 + e.TIMER_FREQ / 2) / e.TIMER_FREQ * e.TIMER_FREQ)
        ≤ e.TIMER_FREQ
    ∧ 2 * ((1193180 + e.TIMER_FREQ / 2) / e.TIMER_FREQ * e.TIMER_FREQ - 1193180)
        ≤ e.TIMER_FREQ := by
  generalize hF : e.TIMER_FREQ = F at *
  generalize hc : (1193180 + F / 2) / F = c
  have hFpos : 0 < F := by omega
  have hlt : c < 65536 := by
    rw [← hc]
    apply Nat.div_lt_of_lt_mul
    omega
  have h1 : c * F ≤ 1193180 + F / 2 := by
    rw [← hc]; exact Nat.div_mul_le_self _ _
  have h2 : 1193180 + F / 2 < c * F + F := by
    rw [← hc]
    have h3 := Nat.div_add_mod' (1193180 + F / 2) F
    have h4 := Nat.mod_lt (1193180 + F / 2) hFpos
    omega
  have hm : c % 2 ^ 16 = c := by omega
  have hand : (c % 2 ^ 16) &&& 0xff = c % 256 := by
    rw [hm]
    exact Nat.and_pow_two_sub_one_eq_mod c 8
  have hshr : (c % 2 ^ 16) >>> 8 = c / 256 := by
    rw [hm, Nat.shiftRight_eq_div_pow]
  have hw : (timer_init e k).trace = k.trace ++
        [Call.outb 0x43 0x34, Call.outb 0x40 (c % 256), Call.outb 0x40 (c / 256),
         Call.intr_register_ext 0x20] := by
    simp only [timer_init, hF, hc, hand, hshr]
    have e1 : c % 256 % 2 ^ 8 = c % 256 := by omega
    have e2 : c / 256 % 2 ^ 8 = c / 256 := by omega
    rw [e1, e2]
  refine ⟨hw, ?_, by omega, by omega, by omega, by omega⟩
  rw [hw, port_writes_append]
  rfl

/-- C9 at the default frequency of 100 Hz: the divisor is 11932 = 0x2e9c. -/
theorem timer_init_programs_pit_witness :
    (19 ≤ spec_env.TIMER_FREQ ∧ spec_env.TIMER_FREQ ≤ 1000)
    ∧ port_writes (timer_init spec_env boot).trace = [(0x43, 0x34), (0x40, 156), (0x40, 46)] :=
  ⟨⟨by decide, by decide⟩,
   (timer_init_programs_pit spec_env boot (by decide) (by decide)).2.1⟩

/-! ## `timer_calibrate` -/

theorem calibrate_double_sim (L : Nat) (hL : L < 2 ^ 31) (fuel lpt : Nat) (hpos : 0 < lpt)
    (hle : lpt ≤ L) (hfuel : L < lpt * 2 ^ fuel) :
    ∃ i, calibrate_double (sim_too_many_loops L) fuel lpt = Outcome.done (lpt * 2 ^ i)
      ∧ lpt * 2 ^ i ≤ L ∧ L < 2 * (lpt * 2 ^ i) := by
  induction fuel generalizing lpt with
  | zero => simp at hfuel; omega
  | succ fuel ih =>
    have hsh : wrap_u32 (lpt <<< 1) = 2 * lpt := by
      unfold wrap_u32
      rw [Nat.shiftLeft_eq]
      omega
    simp only [calibrate_double, hsh, sim_too_many_loops]
    by_cases h : 2 * lpt ≤ L
    · have hf : L < 2 * lpt * 2 ^ fuel := by
        have e : lpt * 2 ^ (fuel + 1) = 2 * lpt * 2 ^ fuel := by ring
        rw [e] at hfuel
        exact hfuel
      obtain ⟨i, h1, h2, h3⟩ := ih (2 * lpt) (by omega) h hf
      have e : lpt * 2 ^ (i + 1) = 2 * lpt * 2 ^ i := by ring
      refine ⟨i + 1, ?_, by rw [e]; exact h2, by rw [e]; exact h3⟩
      rw [e, ← h1]
      have hne : ¬ (2 * lpt = 0) := by omega
      simp [h, hne]
    · refine ⟨0, ?_, by simpa using hle, by simp; omega⟩
      simp [h]

theorem calibrate_refine_sim (probe : Nat → Bool) (j : Nat) (hj : 10 ≤ j) (fuel i lpt : Nat)
    (hi : j - 10 ≤ i) (hfuel : i - (j - 10) < fuel) :
    ∃ r, calibrate_refine probe (2 ^ j) fuel (2 ^ i) lpt = Outcome.done r ∧ lpt ≤ r := by
  induction fuel generalizing i lpt with
  | zero => omega
  | succ fuel ih =>
    have hs : 2 ^ j >>> 10 = 2 ^ (j - 10) := by
      rw [Nat.shiftRight_eq_div_pow, Nat.pow_div hj (by norm_num)]
    simp only [calibrate_refine, hs]
    by_cases hi2 : i = j - 10
    · subst hi2
      exact ⟨lpt, by simp, le_refl _⟩
    · have hne : 2 ^ i ≠ 2 ^ (j - 10) := fun hc =>
        hi2 (Nat.pow_right_injective (le_refl 2) hc)
      have hsr : 2 ^ i >>> 1 = 2 ^ (i - 1) := by
        rw [Nat.shiftRight_eq_div_pow, Nat.pow_div (by omega) (by norm_num)]
      rw [hsr]
      obtain ⟨r, h1, h2⟩ := ih (i - 1)
        (if !probe (2 ^ j ||| 2 ^ i) = true then lpt ||| 2 ^ i else lpt) (by omega) (by omega)
      refine ⟨r, ?_, le_trans ?_ h2⟩
      · rw [← h1]
        simp [hne]
      · split
        · exact Nat.le_of_testBit (fun b hb => by simp [hb])
        · exact le_refl _

/-- Under the simulated tick source with `2^10 <= L < 2^31`, `timer_calibrate`
ends normally, and twice the resulting `loops_per_tick` is too many loops for
one tick. -/
theorem timer_calibrate_terminates (L : Nat) (hlo : 2 ^ 10 ≤ L) (hhi : L < 2 ^ 31)
    (k : Timer) (hon : k.intr_on = true) :
    ∃ r, timer_calibrate (sim_too_many_loops L) 64 k
        = Outcome.done { k with loops_per_tick := r }
      ∧ L < 2 * r ∧ sim_too_many_loops L (2 * r) = true := by
  have h0 : wrap_u32 (1 <<< 10) = 1024 := by decide
  obtain ⟨i, h1, h2, h3⟩ := calibrate_double_sim L hhi 64 1024 (by norm_num) hlo (by omega)
  have hp : 1024 * 2 ^ i = 2 ^ (10 + i) := by rw [pow_add]; norm_num
  rw [hp] at h1 h2 h3
  have hsr : 2 ^ (10 + i) >>> 1 = 2 ^ (10 + i - 1) := by
    rw [Nat.shiftRight_eq_div_pow, Nat.pow_div (by omega) (by norm_num)]
  obtain ⟨r, r1, r2⟩ := calibrate_refine_sim (sim_too_many_loops L) (10 + i) (by omega) 64
    (10 + i - 1) (2 ^ (10 + i)) (by omega) (by omega)
  refine ⟨r, ?_, by omega, by simp [sim_too_many_loops]; omega⟩
  unfold timer_calibrate
  rw [if_neg (by simp [hon]), h0, h1]
  dsimp only
  rw [hsr, r1]

/-- C5 at the tick source `L = 1536`: calibration ends normally with
`loops_per_tick = 2046`, a count the probe reports as too many for one tick
(each refined bit was tested alone against the high bit 1024). -/
theorem timer_calibrate_overshoots :
    timer_calibrate (sim_too_many_loops 1536) 64 boot
        = Outcome.done { boot with loops_per_tick := 2046 }
    ∧ sim_too_many_loops 1536 2046 = true
    ∧ ¬ (2046 ≤ 1536) := by
  refine ⟨by decide, by decide, by decide⟩

/-! ## `timer_interrupt` -/

theorem timer_interrupt_ticks (e : Env) (k : Timer) :
    (timer_interrupt e k).ticks = wrap64 (k.ticks + 1) := by
  unfold timer_interrupt
  dsimp only
  split <;> rfl

theorem timer_interrupt_level (e : Env) (k : Timer) :
    (timer_interrupt e k).intr_on = k.intr_on := by
  unfold timer_interrupt
  dsimp only
  split <;> rfl

theorem timer_interrupt_loops (e : Env) (k : Timer) :
    (timer_interrupt e k).loops_per_tick = k.loops_per_tick := by
  unfold timer_interrupt
  dsimp only
  split <;> rfl

theorem timer_interrupt_due (e : Env) (k : Timer)
    (h : k.shared.global_tick ≤ wrap64 (k.ticks + 1)) :
    timer_interrupt e k =
      { k with
        ticks := wrap64 (k.ticks + 1)
        shared := (e.thread_awake (wrap64 (k.ticks + 1)) k.shared).1
        trace := k.trace ++ [Call.thread_tick] ++ [Call.thread_awake (wrap64 (k.ticks + 1))] } := by
  unfold timer_interrupt
  dsimp only
  rw [if_pos h]

theorem timer_interrupt_not_due (e : Env) (k : Timer)
    (h : wrap64 (k.ticks + 1) < k.shared.global_tick) :
    timer_interrupt e k =
      { k with
        ticks := wrap64 (k.ticks + 1)
        trace := k.trace ++ [Call.thread_tick] } := by
  unfold timer_interrupt
  dsimp only
  rw [if_neg (not_le.mpr h)]

/-- C4: from counter `t` and threshold `g`, one run of `timer_interrupt`
sets the counter to `t + 1`, then calls `thread_awake` exactly once, with
argument `t + 1`, if and only if `g <= t + 1`; when `g > t + 1` (so when
`g = INT64_MAX` and `t + 1 < INT64_MAX`) `thread_awake` is not called and
the sleep list and the threshold stay as they were. -/
theorem timer_interrupt_check_then_scan (e : Env) (k : Timer)
    (hlo : -(2 ^ 63) ≤ k.ticks) (hhi : k.ticks < INT64_MAX) :
    (timer_interrupt e k).ticks = k.ticks + 1
    ∧ (awake_calls (timer_interrupt e k).trace = awake_calls k.trace ++ [k.ticks + 1]
        ↔ k.shared.global_tick ≤ k.ticks + 1)
    ∧ (k.shared.global_tick ≤ k.ticks + 1 →
        (timer_interrupt e k).trace
            = k.trace ++ [Call.thread_tick, Call.thread_awake (k.ticks + 1)]
        ∧ (timer_interrupt e k).shared = (e.thread_awake (k.ticks + 1) k.shared).1)
    ∧ (k.ticks + 1 < k.shared.global_tick →
        (timer_interrupt e k).trace = k.trace ++ [Call.thread_tick]
        ∧ awake_calls (timer_interrupt e k).trace = awake_calls k.trace
        ∧ (timer_interrupt e k).shared = k.shared)
    ∧ (k.shared.global_tick = INT64_MAX → k.ticks + 1 < INT64_MAX →
        awake_calls (timer_interrupt e k).trace = awake_calls k.trace
        ∧ (timer_interrupt e k).shared = k.shared) := by
  have hw : wrap64 (k.ticks + 1) = k.ticks + 1 := by
    apply wrap64_of_fits
    unfold fits64
    unfold INT64_MAX at hhi
    omega
  have hdue : k.shared.global_tick ≤ k.ticks + 1 →
      (timer_interrupt e k).trace
            = k.trace ++ [Call.thread_tick, Call.thread_awake (k.ticks + 1)]
        ∧ (timer_interrupt e k).shared = (e.thread_awake (k.ticks + 1) k.shared).1 := by
    intro h
    rw [timer_interrupt_due e k (by rw [hw]; exact h), hw]
    simp
  have hnot : k.ticks + 1 < k.shared.global_tick →
      (timer_interrupt e k).trace = k.trace ++ [Call.thread_tick]
        ∧ awake_calls (timer_interrupt e k).trace = awake_calls k.trace
        ∧ (timer_interrupt e k).shared = k.shared := by
    intro h
    rw [timer_interrupt_not_due e k (by rw [hw]; exact h)]
    simp [awake_calls_append, awake_calls]
  refine ⟨by rw [timer_interrupt_ticks, hw], ?_, hdue, hnot, ?_⟩
  · constructor
    · intro h
      by_contra hc
      have h2 := (hnot (not_le.mp hc)).2.1
      rw [h2] at h
      simp at h
    · intro h
      rw [(hdue h).1]
      simp [awake_calls_append, awake_calls]
  · intro hg hlt
    have h := hnot (by rw [hg]; exact hlt)
    exact ⟨h.2.1, h.2.2⟩

/-- C4 at counter 59 with threshold 60: the handler reaches tick 60 and
calls `thread_awake (60)` once. -/
theorem timer_interrupt_check_then_scan_witness :
    (-(2 ^ 63) ≤ due_state.ticks ∧ due_state.ticks < INT64_MAX)
    ∧ (timer_interrupt spec_env due_state).ticks = 60
    ∧ (timer_interrupt spec_env due_state).trace
        = [Call.thread_tick, Call.thread_awake 60] :=
  ⟨⟨by decide, by decide⟩,
   (timer_interrupt_check_then_scan spec_env due_state (by decide) (by decide)).1,
   ((timer_interrupt_check_then_scan spec_env due_state (by decide) (by decide)).2.2.1
      (by decide)).1⟩

/-! ## The next-wake threshold -/

theorem deliver_level (e : Env) (n : Nat) (k : Timer) :
    (deliver e n k).intr_on = k.intr_on := by
  induction n generalizing k with
  | zero => rfl
  | succ n ih =>
    show (deliver e n (timer_interrupt e k)).intr_on = _
    rw [ih, timer_interrupt_level]

theorem deliver_loops (e : Env) (n : Nat) (k : Timer) :
    (deliver e n k).loops_per_tick = k.loops_per_tick := by
  induction n generalizing k with
  | zero => rfl
  | succ n ih =>
    show (deliver e n (timer_interrupt e k)).loops_per_tick = _
    rw [ih, timer_interrupt_loops]

theorem timer_interrupt_sleep_calls (e : Env) (k : Timer) :
    sleep_calls (timer_interrupt e k).trace = sleep_calls k.trace := by
  unfold timer_interrupt
  dsimp only
  split <;> simp [sleep_calls_append, sleep_calls]

theorem deliver_sleep_calls (e : Env) (n : Nat) (k : Timer) :
    sleep_calls (deliver e n k).trace = sleep_calls k.trace := by
  induction n generalizing k with
  | zero => rfl
  | succ n ih =>
    show sleep_calls (deliver e n (timer_interrupt e k)).trace = _
    rw [ih, timer_interrupt_sleep_calls]

theorem timer_interrupt_runs (e : Env) (k : Timer) :
    handler_runs (timer_interrupt e k).trace = handler_runs k.trace + 1 := by
  unfold timer_interrupt
  dsimp only
  split <;> simp [handler_runs_append, handler_runs]

theorem deliver_runs (e : Env) (n : Nat) (k : Timer) :
    handler_runs (deliver e n k).trace = handler_runs k.trace + n := by
  induction n generalizing k with
  | zero => rfl
  | succ n ih =>
    show handler_runs (deliver e n (timer_interrupt e k)).trace = _
    rw [ih, timer_interrupt_runs]
    omega

theorem deliver_ticks (e : Env) (n : Nat) (k : Timer) (hlo : -(2 ^ 63) ≤ k.ticks)
    (hhi : k.ticks + (n : Int) < 2 ^ 63) : (deliver e n k).ticks = k.ticks + (n : Int) := by
  induction n generalizing k with
  | zero => simp [deliver]
  | succ n ih =>
    show (deliver e n (timer_interrupt e k)).ticks = _
    have hw : (timer_interrupt e k).ticks = k.ticks + 1 := by
      rw [timer_interrupt_ticks]
      apply wrap64_of_fits
      unfold fits64
      push_cast at hhi
      omega
    rw [ih (timer_interrupt e k) (by rw [hw]; omega) (by rw [hw]; push_cast at hhi; omega), hw]
    push_cast
    omega

theorem timer_sleep_blocks (e : Env) (self : Nat) (p : Preempt) (n : Int) (k : Timer)
    (hon : k.intr_on = true)
    (hrem : wrap64 ((deliver e p.before_check k).ticks - k.ticks) < n) :
    timer_sleep e self p n k =
      some (call_thread_sleep e self
        (if p.elapsed_first then
          wrap64 (wrap64 ((deliver e p.between_operands (deliver e p.before_operands
              (deliver e p.before_check k))).ticks + n)
            - wrap64 ((deliver e p.before_operands (deliver e p.before_check k)).ticks - k.ticks))
         else
          wrap64 (wrap64 ((deliver e p.before_operands (deliver e p.before_check k)).ticks + n)
            - wrap64 ((deliver e p.between_operands (deliver e p.before_operands
              (deliver e p.before_check k))).ticks - k.ticks)))
        (deliver e p.between_operands (deliver e p.before_operands
          (deliver e p.before_check k)))) := by
  unfold timer_sleep
  dsimp only
  simp only [timer_ticks_state, timer_ticks_value, timer_elapsed_state, timer_elapsed_value]
  rw [if_neg (by simp [hon]), if_pos hrem]
  split <;> rfl

theorem timer_sleep_returns (e : Env) (self : Nat) (p : Preempt) (n : Int) (k : Timer)
    (hon : k.intr_on = true)
    (hrem : ¬ wrap64 ((deliver e p.before_check k).ticks - k.ticks) < n) :
    timer_sleep e self p n k = some (deliver e p.before_check k) := by
  unfold timer_sleep
  dsimp only
  simp only [timer_ticks_state, timer_ticks_value, timer_elapsed_state, timer_elapsed_value]
  rw [if_neg (by simp [hon]), if_neg hrem]

/-- C3 at `timer_sleep (10)` called at tick 50, one timer interrupt between
the two operand reads (`timer_ticks ()` reads 50, `timer_elapsed (start)`
reads 51): the call passes wake tick 59 to `thread_sleep`, one tick before
`T + n = 60`. -/
theorem timer_sleep_wakes_one_tick_early :
    timer_sleep spec_env 1 tick_between_operands 10 at_tick_50
      = some { at_tick_50 with
               ticks := 51
               shared := { global_tick := INT64_MAX, sleep_list := [⟨1, 59⟩] }
               trace := [Call.thread_tick, Call.thread_sleep 59] }
    ∧ (59 : Int) < at_tick_50.ticks + 10 := by
  decide


/-- The wake tick `timer_sleep` passes to `thread_sleep` when the counter
does not overflow: `start + ticks` plus the timer interrupts that fall
between the two operand reads if `timer_elapsed (start)` is read first, minus
them if `timer_ticks ()` is read first. -/
theorem timer_sleep_wake_tick (e : Env) (self : Nat) (p : Preempt) (n : Int) (k : Timer)
    (hon : k.intr_on = true) (hlo : 0 ≤ k.ticks) (hn : 0 ≤ n)
    (hhi : k.ticks
      + ((p.before_check + p.before_operands + p.between_operands : Nat) : Int) + n < 2 ^ 63)
    (hrem : ((p.before_check : Nat) : Int) < n) :
    ∃ k2, timer_sleep e self p n k = some k2
      ∧ sleep_calls k2.trace = sleep_calls k.trace
          ++ [if p.elapsed_first then k.ticks + n + (p.between_operands : Int)
              else k.ticks + n - (p.between_operands : Int)] := by
  push_cast at hhi
  have c1 : (0 : Int) ≤ (p.before_check : Int) := Int.ofNat_nonneg _
  have c2 : (0 : Int) ≤ (p.before_operands : Int) := Int.ofNat_nonneg _
  have c3 : (0 : Int) ≤ (p.between_operands : Int) := Int.ofNat_nonneg _
  have t1 : (deliver e p.before_check k).ticks = k.ticks + (p.before_check : Int) :=
    deliver_ticks e _ k (by omega) (by omega)
  have t2 : (deliver e p.before_operands (deliver e p.before_check k)).ticks
      = k.ticks + (p.before_check : Int) + (p.before_operands : Int) := by
    rw [deliver_ticks e _ _ (by rw [t1]; omega) (by rw [t1]; omega), t1]
  have t3 : (deliver e p.between_operands (deliver e p.before_operands
      (deliver e p.before_check k))).ticks
      = k.ticks + (p.before_check : Int) + (p.before_operands : Int)
        + (p.between_operands : Int) := by
    rw [deliver_ticks e _ _ (by rw [t2]; omega) (by rw [t2]; omega), t2]
  have hcheck : wrap64 ((deliver e p.before_check k).ticks - k.ticks) < n := by
    rw [t1, wrap64_of_fits (by unfold fits64; omega)]
    omega
  refine ⟨_, timer_sleep_blocks e self p n k hon hcheck, ?_⟩
  have hcalls : sleep_calls (deliver e p.between_operands (deliver e p.before_operands
      (deliver e p.before_check k))).trace = sleep_calls k.trace := by
    rw [deliver_sleep_calls, deliver_sleep_calls, deliver_sleep_calls]
  simp only [call_thread_sleep, sleep_calls_append, sleep_calls, hcalls, t2, t3]
  congr 2
  split
  · have h1 : wrap64 (k.ticks + (p.before_check : Int) + (p.before_operands : Int)
        + (p.between_operands : Int) + n)
        = k.ticks + (p.before_check : Int) + (p.before_operands : Int)
          + (p.between_operands : Int) + n :=
      wrap64_of_fits (by unfold fits64; omega)
    have h2 : wrap64 (k.ticks + (p.before_check : Int) + (p.before_operands : Int) - k.ticks)
        = k.ticks + (p.before_check : Int) + (p.before_operands : Int) - k.ticks :=
      wrap64_of_fits (by unfold fits64; omega)
    rw [h1, h2, wrap64_of_fits (by unfold fits64; omega)]
    omega
  · have h1 : wrap64 (k.ticks + (p.before_check : Int) + (p.before_operands : Int) + n)
        = k.ticks + (p.before_check : Int) + (p.before_operands : Int) + n :=
      wrap64_of_fits (by unfold fits64; omega)
    have h2 : wrap64 (k.ticks + (p.before_check : Int) + (p.before_operands : Int)
        + (p.between_operands : Int) - k.ticks)
        = k.ticks + (p.before_check : Int) + (p.before_operands : Int)
          + (p.between_operands : Int) - k.ticks :=
      wrap64_of_fits (by unfold fits64; omega)
    rw [h1, h2, wrap64_of_fits (by unfold fits64; omega)]
    omega

/-! ## Real-time sleeps -/

theorem busy_wait_loop_count (fuel : Nat) (loops : Int) (h : loops ≤ (fuel : Int)) :
    busy_wait_loop fuel loops = loops.toNat := by
  induction fuel generalizing loops with
  | zero =>
    simp only [busy_wait_loop]
    simp at h
    omega
  | succ fuel ih =>
    simp only [busy_wait_loop]
    push_cast at h
    split
    · rw [ih (loops - 1) (by omega)]
      omega
    · omega

theorem busy_wait_iterations_eq (loops : Int) : busy_wait_iterations loops = loops.toNat := by
  unfold busy_wait_iterations
  exact busy_wait_loop_count _ _ (Int.self_le_toNat loops)

theorem tdiv_nonneg_bounds (a c : Int) (ha : 0 ≤ a) (hc : 0 < c) :
    0 ≤ a.tdiv c ∧ a.tdiv c * c ≤ a ∧ a < (a.tdiv c + 1) * c := by
  refine ⟨Int.tdiv_nonneg ha (le_of_lt hc), ?_, Int.lt_tdiv_add_one_mul_self a hc⟩
  rw [Int.tdiv_eq_ediv ha (le_of_lt hc)]
  exact Int.ediv_mul_le a (ne_of_gt hc)

theorem tdiv_nonpos_bounds (a c : Int) (ha : a ≤ 0) (hc : 0 < c) :
    a.tdiv c ≤ 0 ∧ a ≤ a.tdiv c * c := by
  have h := tdiv_nonneg_bounds (-a) c (by omega) hc
  rw [Int.neg_tdiv] at h
  obtain ⟨h1, h2, _⟩ := h
  constructor
  · omega
  · have : -(a.tdiv c) * c = -(a.tdiv c * c) := by ring
    rw [this] at h2
    omega

theorem tdiv_fits (a c : Int) (ha : fits64 a) (hc : 0 < c) : fits64 (a.tdiv c) := by
  unfold fits64 at *
  rcases le_total 0 a with h | h
  · obtain ⟨h1, h2, _⟩ := tdiv_nonneg_bounds a c h hc
    have : a.tdiv c ≤ a.tdiv c * c := by nlinarith
    omega
  · obtain ⟨h1, h2⟩ := tdiv_nonpos_bounds a c h hc
    have : a.tdiv c * c ≤ a.tdiv c := by nlinarith
    omega

theorem sleep_ticks_exact (F : Nat) (num denom : Int) (hden : 0 < denom)
    (hrep : fits64 (num * (F : Int))) :
    sleep_ticks F num denom = (num * (F : Int)).tdiv denom := by
  unfold sleep_ticks
  rw [wrap64_of_fits hrep, wrap64_of_fits (tdiv_fits _ _ hrep hden)]

theorem busy_loops_of_fits (F lpt : Nat) (num denom : Int) (hF : F ≤ 1000)
    (hden : denom = 1000 ∨ denom = 1000000 ∨ denom = 1000000000)
    (hfit : fits64 ((lpt : Int) * num)) :
    fits64 (((lpt : Int) * num).tdiv 1000)
    ∧ fits64 (((lpt : Int) * num).tdiv 1000 * (F : Int))
    ∧ fits64 (busy_loops_exact F lpt num denom)
    ∧ busy_loops F lpt num denom = busy_loops_exact F lpt num denom := by
  have h1 : fits64 (((lpt : Int) * num).tdiv 1000) := tdiv_fits _ _ hfit (by norm_num)
  have h2 : fits64 (((lpt : Int) * num).tdiv 1000 * (F : Int)) := by
    generalize (lpt : Int) * num = a at *
    have hF2 : (F : Int) ≤ 1000 := by exact_mod_cast hF
    have hF0 : (0 : Int) ≤ F := Int.ofNat_nonneg F
    unfold fits64 at *
    rcases le_total 0 a with h | h
    · obtain ⟨b1, b2, _⟩ := tdiv_nonneg_bounds a 1000 h (by norm_num)
      have : a.tdiv 1000 * (F : Int) ≤ a.tdiv 1000 * 1000 :=
        Int.mul_le_mul_of_nonneg_left hF2 b1
      have : 0 ≤ a.tdiv 1000 * (F : Int) := Int.mul_nonneg b1 hF0
      omega
    · obtain ⟨b1, b2⟩ := tdiv_nonpos_bounds a 1000 h (by norm_num)
      have : a.tdiv 1000 * 1000 ≤ a.tdiv 1000 * (F : Int) :=
        Int.mul_le_mul_of_nonpos_left b1 hF2
      have : a.tdiv 1000 * (F : Int) ≤ 0 := Int.mul_nonpos_of_nonpos_of_nonneg b1 hF0
      omega
  have hd : 0 < denom.tdiv 1000 := by
    rcases hden with h | h | h <;> subst h <;> decide
  have h3 : fits64 (busy_loops_exact F lpt num denom) := tdiv_fits _ _ h2 hd
  refine ⟨h1, h2, h3, ?_⟩
  unfold busy_loops
  dsimp only
  rw [wrap64_of_fits hfit, wrap64_of_fits h1, wrap64_of_fits h2]
  exact wrap64_of_fits h3

theorem subtick_of_tdiv_nonpos (x denom : Int) (hx : 0 ≤ x) (hden : 0 < denom)
    (h : x.tdiv denom ≤ 0) : x < denom := by
  have h1 := Int.lt_tdiv_add_one_mul_self x hden
  have h0 := Int.tdiv_nonneg hx (le_of_lt hden)
  have h2 : x.tdiv denom = 0 := by omega
  rw [h2] at h1
  omega

theorem subtick_product_fits (F lpt : Nat) (num denom : Int) (hF : 19 ≤ F)
    (hl : lpt < 2 ^ 32) (hden : denom = 1000 ∨ denom = 1000000 ∨ denom = 1000000000)
    (hnum : 0 ≤ num) (hsub : num * (F : Int) < denom) :
    fits64 ((lpt : Int) * num) := by
  have hF2 : (19 : Int) ≤ F := by exact_mod_cast hF
  have hl2 : (lpt : Int) ≤ 4294967295 := by
    have : lpt ≤ 4294967295 := by omega
    exact_mod_cast this
  have hl0 : (0 : Int) ≤ lpt := Int.ofNat_nonneg lpt
  have h19 : num * 19 ≤ num * (F : Int) := Int.mul_le_mul_of_nonneg_left hF2 hnum
  have hd : denom ≤ 1000000000 := by
    rcases hden with h | h | h <;> subst h <;> decide
  have hn : num ≤ 52631578 := by omega
  have hp : (lpt : Int) * num ≤ 4294967295 * num := Int.mul_le_mul_of_nonneg_right hl2 hnum
  have hq : 0 ≤ (lpt : Int) * num := Int.mul_nonneg hl0 hnum
  unfold fits64
  omega

/-- C7 fails at `timer_msleep (-90000000000000000)` with `TIMER_FREQ = 100`
and `loops_per_tick = 1024`: `num * TIMER_FREQ` is representable and the tick
count is `<= 0`, so the busy-wait path is taken, but the first product
`loops_per_tick * num` is below `INT64_MIN`; modulo 2^64 the expression is
7372036854775800, over the integers it is -9216000000000000000. -/
theorem busy_loops_overflows_for_negative_num :
    19 ≤ 100 ∧ 100 ≤ 1000 ∧ 1024 < 2 ^ 32
    ∧ fits64 (-90000000000000000)
    ∧ fits64 (-90000000000000000 * ((100 : Nat) : Int))
    ∧ sleep_ticks 100 (-90000000000000000) 1000 ≤ 0
    ∧ ¬ fits64 (((1024 : Nat) : Int) * -90000000000000000)
    ∧ busy_loops 100 1024 (-90000000000000000) 1000 = 7372036854775800
    ∧ busy_loops_exact 100 1024 (-90000000000000000) 1000 = -9216000000000000000
    ∧ busy_loops 100 1024 (-90000000000000000) 1000
        ≠ busy_loops_exact 100 1024 (-90000000000000000) 1000 := by
  decide

/-- C7 as amended: for `TIMER_FREQ` in [19, 1000], `loops_per_tick < 2^32`,
`denom` in {1000, 10^6, 10^9} and `num` with `num * TIMER_FREQ` representable
and tick count `<= 0`, if `num >= 0` (or, for a negative `num`, if the first
product `loops_per_tick * num` is representable) then no intermediate result
of `loops_per_tick * num / 1000 * TIMER_FREQ / (denom / 1000)` overflows and
the value modulo 2^64 is the value over the integers. -/
theorem busy_loops_no_overflow (F lpt : Nat) (num denom : Int)
    (hlo : 19 ≤ F) (hhi : F ≤ 1000) (hl : lpt < 2 ^ 32)
    (hden : denom = 1000 ∨ denom = 1000000 ∨ denom = 1000000000)
    (hrep : fits64 (num * (F : Int))) (hpath : sleep_ticks F num denom ≤ 0)
    (hdom : 0 ≤ num ∨ fits64 ((lpt : Int) * num)) :
    fits64 ((lpt : Int) * num)
    ∧ fits64 (((lpt : Int) * num).tdiv 1000)
    ∧ fits64 (((lpt : Int) * num).tdiv 1000 * (F : Int))
    ∧ fits64 (busy_loops_exact F lpt num denom)
    ∧ busy_loops F lpt num denom = busy_loops_exact F lpt num denom := by
  have hd : 0 < denom := by
    rcases hden with h | h | h <;> subst h <;> decide
  have hfit : fits64 ((lpt : Int) * num) := by
    rcases hdom with h | h
    · rw [sleep_ticks_exact F num denom hd hrep] at hpath
      have hx : 0 ≤ num * (F : Int) := Int.mul_nonneg h (Int.ofNat_nonneg F)
      exact subtick_product_fits F lpt num denom hlo hl hden h
        (subtick_of_tdiv_nonpos _ _ hx hd hpath)
    · exact h
  exact ⟨hfit, busy_loops_of_fits F lpt num denom hhi hden hfit⟩

/-- C7 as amended, at `timer_msleep (3)` with 5000 loops per tick at 100 Hz:
1500 loops. -/
theorem busy_loops_no_overflow_witness :
    (19 ≤ 100 ∧ 100 ≤ 1000 ∧ 5000 < 2 ^ 32 ∧ fits64 (3 * ((100 : Nat) : Int))
      ∧ sleep_ticks 100 3 1000 ≤ 0)
    ∧ busy_loops 100 5000 3 1000 = 1500 :=
  ⟨by decide,
   (busy_loops_no_overflow 100 5000 3 1000 (by decide) (by decide) (by decide)
      (Or.inl rfl) (by decide) (by decide) (Or.inl (by decide))).2.2.2.2⟩

/-- C10: for `TIMER_FREQ` in [19, 1000], `loops_per_tick >= 1`, `denom` in
{1000, 10^6, 10^9} and `num >= 0` with `num * TIMER_FREQ / denom = 0`, the
count `loops_per_tick * num / 1000 * TIMER_FREQ / (denom / 1000)` passed to
`busy_wait` is non-negative, strictly below `loops_per_tick`, and 0 when
`num = 0`; for an `unsigned` `loops_per_tick` it is the value the `int64_t`
computation yields, and the loop runs fewer than `loops_per_tick` times. -/
theorem busy_wait_below_one_tick (F lpt : Nat) (num denom : Int)
    (hlo : 19 ≤ F) (hhi : F ≤ 1000) (hl : 1 ≤ lpt)
    (hden : denom = 1000 ∨ denom = 1000000 ∨ denom = 1000000000)
    (hnum : 0 ≤ num) (hsub : (num * (F : Int)).tdiv denom = 0) :
    0 ≤ busy_loops_exact F lpt num denom
    ∧ busy_loops_exact F lpt num denom < lpt
    ∧ (num = 0 → busy_loops_exact F lpt num denom = 0)
    ∧ (lpt < 2 ^ 32 →
        sleep_ticks F num denom = 0
        ∧ busy_loops F lpt num denom = busy_loops_exact F lpt num denom
        ∧ busy_wait_iterations (busy_loops F lpt num denom) < lpt) := by
  have hd : 0 < denom := by
    rcases hden with h | h | h <;> subst h <;> decide
  have hc : 0 < denom.tdiv 1000 ∧ denom = denom.tdiv 1000 * 1000 := by
    rcases hden with h | h | h <;> subst h <;> decide
  have hF0 : (0 : Int) ≤ F := Int.ofNat_nonneg F
  have hx : 0 ≤ num * (F : Int) := Int.mul_nonneg hnum hF0
  have hlt : num * (F : Int) < denom := subtick_of_tdiv_nonpos _ _ hx hd (le_of_eq hsub)
  have hl0 : (1 : Int) ≤ lpt := by exact_mod_cast hl
  have ha : 0 ≤ (lpt : Int) * num := Int.mul_nonneg (by omega) hnum
  obtain ⟨b1, b2, _⟩ := tdiv_nonneg_bounds ((lpt : Int) * num) 1000 ha (by norm_num)
  have hm : 0 ≤ ((lpt : Int) * num).tdiv 1000 * (F : Int) := Int.mul_nonneg b1 hF0
  obtain ⟨c1, c2, c3⟩ := tdiv_nonneg_bounds _ (denom.tdiv 1000) hm hc.1
  have hlow : 0 ≤ busy_loops_exact F lpt num denom := c1
  have hup : busy_loops_exact F lpt num denom < lpt := by
    unfold busy_loops_exact
    generalize hq : ((((lpt : Int) * num).tdiv 1000) * (F : Int)).tdiv (denom.tdiv 1000) = q at *
    generalize hd1 : ((lpt : Int) * num).tdiv 1000 = d1 at *
    generalize hcq : denom.tdiv 1000 = c at *
    by_contra hge
    have hge : (lpt : Int) ≤ q := not_lt.mp hge
    -- q * c ≤ d1 * F, d1 * 1000 ≤ lpt * num, num * F < c * 1000
    have e1 : (lpt : Int) * c ≤ q * c := Int.mul_le_mul_of_nonneg_right hge (le_of_lt hc.1)
    have e2 : d1 * 1000 * (F : Int) ≤ (lpt : Int) * num * (F : Int) :=
      Int.mul_le_mul_of_nonneg_right b2 hF0
    have e3 : (lpt : Int) * (num * (F : Int)) ≤ (lpt : Int) * (denom - 1) :=
      Int.mul_le_mul_of_nonneg_left (by omega) (by omega)
    have e4 : (lpt : Int) * c * 1000 ≤ d1 * (F : Int) * 1000 := by nlinarith
    nlinarith
  refine ⟨hlow, hup, ?_, ?_⟩
  · intro h0
    subst h0
    simp [busy_loops_exact]
  · intro hl32
    have hfit := subtick_product_fits F lpt num denom hlo hl32 hden hnum hlt
    have hb := (busy_loops_of_fits F lpt num denom hhi hden hfit).2.2.2
    have hrep : fits64 (num * (F : Int)) := by
      have hd9 : denom ≤ 1000000000 := by
        rcases hden with h | h | h <;> subst h <;> decide
      unfold fits64
      omega
    refine ⟨by rw [sleep_ticks_exact F num denom hd hrep, hsub], hb, ?_⟩
    rw [hb, busy_wait_iterations_eq]
    omega

theorem timer_interrupt_busy_calls (e : Env) (k : Timer) :
    busy_calls (timer_interrupt e k).trace = busy_calls k.trace := by
  unfold timer_interrupt
  dsimp only
  split <;> simp [busy_calls_append, busy_calls]

theorem deliver_busy_calls (e : Env) (n : Nat) (k : Timer) :
    busy_calls (deliver e n k).trace = busy_calls k.trace := by
  induction n generalizing k with
  | zero => rfl
  | succ n ih =>
    show busy_calls (deliver e n (timer_interrupt e k)).trace = _
    rw [ih, timer_interrupt_busy_calls]

theorem timer_sleep_total (e : Env) (self : Nat) (p : Preempt) (n : Int) (k : Timer)
    (hon : k.intr_on = true) : ∃ k2, timer_sleep e self p n k = some k2 := by
  by_cases h : wrap64 ((deliver e p.before_check k).ticks - k.ticks) < n
  · exact ⟨_, timer_sleep_blocks e self p n k hon h⟩
  · exact ⟨_, timer_sleep_returns e self p n k hon h⟩

theorem timer_sleep_busy_calls (e : Env) (self : Nat) (p : Preempt) (n : Int) (k k2 : Timer)
    (h : timer_sleep e self p n k = some k2) : busy_calls k2.trace = busy_calls k.trace := by
  by_cases hon : k.intr_on = true
  · by_cases hrem : wrap64 ((deliver e p.before_check k).ticks - k.ticks) < n
    · rw [timer_sleep_blocks e self p n k hon hrem] at h
      injection h with h
      subst h
      simp [call_thread_sleep, busy_calls_append, busy_calls, deliver_busy_calls]
    · rw [timer_sleep_returns e self p n k hon hrem] at h
      injection h with h
      subst h
      exact deliver_busy_calls e _ k
  · exfalso
    unfold timer_sleep at h
    dsimp only at h
    simp only [timer_ticks_state] at h
    rw [if_pos (by simpa using hon)] at h
    exact Option.noConfusion h

/-- C6: with interrupts enabled and `denom` in {1000, 10^6, 10^9}
(`timer_msleep`, `timer_usleep`, `timer_nsleep`), `real_time_sleep` computes
`ticks = num * TIMER_FREQ / denom` rounded toward zero; if `ticks >= 1` it is
exactly the call `timer_sleep (ticks)` and no `busy_wait` is made; otherwise
it makes one `busy_wait` call, no `thread_sleep` call, and leaves the sleep
list, `global_tick` and the counter as they were. -/
theorem real_time_sleep_dispatch (e : Env) (self : Nat) (p : Preempt) (num denom : Int)
    (k : Timer) (hon : k.intr_on = true)
    (hden : denom = 1000 ∨ denom = 1000000 ∨ denom = 1000000000) :
    (timer_msleep e self p num k = real_time_sleep e self p num 1000 k
      ∧ timer_usleep e self p num k = real_time_sleep e self p num 1000000 k
      ∧ timer_nsleep e self p num k = real_time_sleep e self p num 1000000000 k)
    ∧ (fits64 (num * (e.TIMER_FREQ : Int)) →
        sleep_ticks e.TIMER_FREQ num denom = (num * (e.TIMER_FREQ : Int)).tdiv denom)
    ∧ (1 ≤ sleep_ticks e.TIMER_FREQ num denom →
        real_time_sleep e self p num denom k
            = timer_sleep e self p (sleep_ticks e.TIMER_FREQ num denom) k
        ∧ ∃ k2, real_time_sleep e self p num denom k = some k2
            ∧ busy_calls k2.trace = busy_calls k.trace)
    ∧ (sleep_ticks e.TIMER_FREQ num denom < 1 →
        ∃ k2, real_time_sleep e self p num denom k = some k2
          ∧ k2.trace = k.trace
              ++ [Call.busy_wait (busy_loops e.TIMER_FREQ k.loops_per_tick num denom)]
          ∧ sleep_calls k2.trace = sleep_calls k.trace
          ∧ k2.shared = k.shared
          ∧ k2.ticks = k.ticks) := by
  have hd : 0 < denom ∧ denom.tmod 1000 = 0 := by
    rcases hden with h | h | h <;> subst h <;> decide
  refine ⟨⟨rfl, rfl, rfl⟩, fun h => sleep_ticks_exact _ _ _ hd.1 h, ?_, ?_⟩
  · intro hpos
    have heq : real_time_sleep e self p num denom k
        = timer_sleep e self p (sleep_ticks e.TIMER_FREQ num denom) k := by
      unfold real_time_sleep
      dsimp only
      rw [if_neg (by simp [hon]), if_pos (by omega)]
    obtain ⟨k2, hk2⟩ := timer_sleep_total e self p (sleep_ticks e.TIMER_FREQ num denom) k hon
    exact ⟨heq, k2, by rw [heq, hk2], timer_sleep_busy_calls e self p _ k k2 hk2⟩
  · intro hsub
    refine ⟨busy_wait (busy_loops e.TIMER_FREQ k.loops_per_tick num denom) k, ?_, rfl, ?_,
      rfl, rfl⟩
    · unfold real_time_sleep
      dsimp only
      rw [if_neg (by simp [hon]), if_neg (by omega), if_neg (by simp [hd.2])]
    · simp [busy_wait, sleep_calls_append, sleep_calls]

/-- C6 at `timer_msleep (0)` with 5000 loops per tick at 100 Hz: 0 ticks,
one `busy_wait (0)` of 0 iterations, sleep list and threshold untouched. -/
theorem real_time_sleep_dispatch_witness :
    (calibrated_5000.intr_on = true
      ∧ ((1000 : Int) = 1000 ∨ (1000 : Int) = 1000000 ∨ (1000 : Int) = 1000000000))
    ∧ sleep_ticks spec_env.TIMER_FREQ 0 1000 = 0
    ∧ (∃ k2, timer_msleep spec_env 1 Preempt.quiet 0 calibrated_5000 = some k2
        ∧ k2.trace = [Call.busy_wait 0]
        ∧ k2.shared = calibrated_5000.shared)
    ∧ busy_wait_iterations 0 = 0 :=
  ⟨⟨by decide, Or.inl rfl⟩, by decide,
   match (real_time_sleep_dispatch spec_env 1 Preempt.quiet 0 1000 calibrated_5000
      (by decide) (Or.inl rfl)).2.2.2 (by decide) with
   | ⟨k2, h1, h2, _, h4, _⟩ => ⟨k2, h1, h2, h4⟩,
   by decide⟩

/-- C10 at `timer_msleep (3)` with 5000 loops per tick at 100 Hz: 1500
loops, fewer than 5000. -/
theorem busy_wait_below_one_tick_witness :
    (19 ≤ 100 ∧ 100 ≤ 1000 ∧ 1 ≤ 5000 ∧ (0 : Int) ≤ 3
      ∧ ((3 : Int) * ((100 : Nat) : Int)).tdiv 1000 = 0)
    ∧ busy_loops_exact 100 5000 3 1000 = 1500
    ∧ busy_loops_exact 100 5000 3 1000 < ((5000 : Nat) : Int) :=
  ⟨by decide, by decide,
   (busy_wait_below_one_tick 100 5000 3 1000 (by decide) (by decide) (by decide)
      (Or.inl rfl) (by decide) (by decide)).2.1⟩

/-! ## Monotonicity of the tick counter -/

theorem advances_deliver (e : Env) (n : Nat) (k : Timer) (hlo : -(2 ^ 63) ≤ k.ticks)
    (hhi : k.ticks + (n : Int) < 2 ^ 63) : advances k (deliver e n k) n :=
  ⟨deliver_ticks e n k hlo hhi, deliver_runs e n k, deliver_level e n k⟩

theorem advances_trans {k1 k2 k3 : Timer} {a b : Nat} (h1 : advances k1 k2 a)
    (h2 : advances k2 k3 b) : advances k1 k3 (a + b) := by
  obtain ⟨a1, a2, a3⟩ := h1
  obtain ⟨b1, b2, b3⟩ := h2
  refine ⟨?_, ?_, ?_⟩
  · rw [b1, a1]; push_cast; omega
  · rw [b2, a2]; omega
  · rw [b3, a3]

theorem timer_sleep_advances (e : Env) (self : Nat) (p : Preempt) (n : Int) (k k2 : Timer)
    (h : timer_sleep e self p n k = some k2) (hlo : -(2 ^ 63) ≤ k.ticks)
    (hhi : k.ticks + ((p.before_check + p.before_operands + p.between_operands : Nat) : Int)
      < 2 ^ 63) :
    ∃ d, d ≤ p.before_check + p.before_operands + p.between_operands ∧ advances k k2 d := by
  push_cast at hhi
  have hon : k.intr_on = true := by
    by_contra hc
    unfold timer_sleep at h
    dsimp only at h
    simp only [timer_ticks_state] at h
    rw [if_pos (by simpa using hc)] at h
    exact Option.noConfusion h
  have s1 := advances_deliver e p.before_check k hlo (by omega)
  by_cases hrem : wrap64 ((deliver e p.before_check k).ticks - k.ticks) < n
  · rw [timer_sleep_blocks e self p n k hon hrem] at h
    injection h with h
    have s2 := advances_deliver e p.before_operands (deliver e p.before_check k)
      (by rw [s1.1]; omega) (by rw [s1.1]; omega)
    have s12 := advances_trans s1 s2
    have s3 := advances_deliver e p.between_operands
      (deliver e p.before_operands (deliver e p.before_check k))
      (by rw [s12.1]; push_cast; omega) (by rw [s12.1]; push_cast; omega)
    have s123 := advances_trans s12 s3
    refine ⟨_, le_refl _, ?_⟩
    subst h
    obtain ⟨a1, a2, a3⟩ := s123
    refine ⟨a1, ?_, a3⟩
    simp only [call_thread_sleep, handler_runs_append, handler_runs]
    omega
  · rw [timer_sleep_returns e self p n k hon hrem] at h
    injection h with h
    subst h
    exact ⟨_, by omega, s1⟩

theorem real_time_sleep_advances (e : Env) (self : Nat) (p : Preempt) (num denom : Int)
    (k k2 : Timer) (h : real_time_sleep e self p num denom k = some k2)
    (hlo : -(2 ^ 63) ≤ k.ticks)
    (hhi : k.ticks + ((p.before_check + p.before_operands + p.between_operands : Nat) : Int)
      < 2 ^ 63) :
    ∃ d, d ≤ p.before_check + p.before_operands + p.between_operands ∧ advances k k2 d := by
  unfold real_time_sleep at h
  dsimp only at h
  split at h
  · exact Option.noConfusion h
  · split at h
    · exact timer_sleep_advances e self p _ k k2 h hlo hhi
    · split at h
      · exact Option.noConfusion h
      · injection h with h
        subst h
        refine ⟨0, Nat.zero_le _, ?_, ?_, rfl⟩
        · simp [busy_wait]
        · simp [busy_wait, handler_runs_append, handler_runs]

theorem step_advances (e : Env) (op : Op) (k k2 : Timer) (h : step e op k = some k2)
    (hlo : -(2 ^ 63) ≤ k.ticks) (hhi : k.ticks + (handler_bound op : Int) < 2 ^ 63) :
    ∃ d, d ≤ handler_bound op ∧ (op = Op.timer_interrupt → d = 1) ∧ advances k k2 d := by
  cases op with
  | timer_ticks =>
    injection h with h
    subst h
    exact ⟨0, Nat.zero_le _, fun hc => Op.noConfusion hc, by simp [advances, timer_ticks]⟩
  | timer_elapsed start =>
    injection h with h
    subst h
    exact ⟨0, Nat.zero_le _, fun hc => Op.noConfusion hc,
      by simp [advances, timer_elapsed, timer_ticks]⟩
  | timer_sleep self p n =>
    obtain ⟨d, h1, h2⟩ := timer_sleep_advances e self p n k k2 h hlo hhi
    exact ⟨d, h1, fun hc => Op.noConfusion hc, h2⟩
  | timer_msleep self p n =>
    obtain ⟨d, h1, h2⟩ := real_time_sleep_advances e self p n _ k k2 h hlo hhi
    exact ⟨d, h1, fun hc => Op.noConfusion hc, h2⟩
  | timer_usleep self p n =>
    obtain ⟨d, h1, h2⟩ := real_time_sleep_advances e self p n _ k k2 h hlo hhi
    exact ⟨d, h1, fun hc => Op.noConfusion hc, h2⟩
  | timer_nsleep self p n =>
    obtain ⟨d, h1, h2⟩ := real_time_sleep_advances e self p n _ k k2 h hlo hhi
    exact ⟨d, h1, fun hc => Op.noConfusion hc, h2⟩
  | timer_interrupt =>
    injection h with h
    subst h
    exact ⟨1, le_refl _, fun _ => rfl, advances_deliver e 1 k hlo hhi⟩

theorem real_time_sleep_total (e : Env) (self : Nat) (p : Preempt) (num denom : Int)
    (k : Timer) (hon : k.intr_on = true) (hmul : denom.tmod 1000 = 0) :
    ∃ k2, real_time_sleep e self p num denom k = some k2 := by
  unfold real_time_sleep
  dsimp only
  rw [if_neg (by simp [hon])]
  split
  · exact timer_sleep_total e self p _ k hon
  · rw [if_neg (by simp [hmul])]
    exact ⟨_, rfl⟩

theorem step_total (e : Env) (op : Op) (k : Timer) (hon : k.intr_on = true) :
    ∃ k2, step e op k = some k2 := by
  cases op with
  | timer_ticks => exact ⟨_, rfl⟩
  | timer_elapsed start => exact ⟨_, rfl⟩
  | timer_sleep self p n => exact timer_sleep_total e self p n k hon
  | timer_msleep self p n => exact real_time_sleep_total e self p n _ k hon (by decide)
  | timer_usleep self p n => exact real_time_sleep_total e self p n _ k hon (by decide)
  | timer_nsleep self p n => exact real_time_sleep_total e self p n _ k hon (by decide)
  | timer_interrupt => exact ⟨_, rfl⟩

theorem interrupt_budget_append (a b : List Op) :
    interrupt_budget (a ++ b) = interrupt_budget a + interrupt_budget b := by
  induction a with
  | nil => simp [interrupt_budget]
  | cons op ops ih => simp [interrupt_budget, ih, Nat.add_assoc]

theorem exec_append (e : Env) (a b : List Op) (k k1 : Timer) (h : exec e a k = some k1) :
    exec e (a ++ b) k = exec e b k1 := by
  induction a generalizing k with
  | nil =>
    injection h with h
    subst h
    rfl
  | cons op ops ih =>
    simp only [exec, List.cons_append] at h ⊢
    split at h
    · next k2 hk2 => exact ih k2 h
    · exact Option.noConfusion h

theorem exec_advances (e : Env) (ops : List Op) (k : Timer) (hon : k.intr_on = true)
    (hlo : -(2 ^ 63) ≤ k.ticks) (hhi : k.ticks + (interrupt_budget ops : Int) < 2 ^ 63) :
    ∃ k2 d, exec e ops k = some k2 ∧ d ≤ interrupt_budget ops ∧ advances k k2 d := by
  induction ops generalizing k with
  | nil => exact ⟨k, 0, rfl, Nat.zero_le _, by simp [advances]⟩
  | cons op ops ih =>
    simp only [interrupt_budget] at hhi ⊢
    push_cast at hhi
    have hb0 : (0 : Int) ≤ (interrupt_budget ops : Int) := Int.ofNat_nonneg _
    have hh0 : (0 : Int) ≤ (handler_bound op : Int) := Int.ofNat_nonneg _
    obtain ⟨k1, hk1⟩ := step_total e op k hon
    obtain ⟨d1, hd1, _, ha1⟩ := step_advances e op k k1 hk1 hlo (by omega)
    have hd1c : (d1 : Int) ≤ (handler_bound op : Int) := by exact_mod_cast hd1
    obtain ⟨k2, d2, hk2, hd2, ha2⟩ := ih k1 (by rw [ha1.2.2]; exact hon)
      (by rw [ha1.1]; omega) (by rw [ha1.1]; omega)
    refine ⟨k2, d1 + d2, ?_, by omega, advances_trans ha1 ha2⟩
    simp only [exec, hk1]
    exact hk2

theorem observe_sorted (e : Env) (ops : List Op) (k : Timer) (hon : k.intr_on = true)
    (hlo : -(2 ^ 63) ≤ k.ticks) (hhi : k.ticks + (interrupt_budget ops : Int) < 2 ^ 63) :
    (∀ v ∈ observe e ops k, k.ticks ≤ v)
    ∧ List.Pairwise (fun a b => a ≤ b) (observe e ops k) := by
  induction ops generalizing k with
  | nil => simp [observe]
  | cons op ops ih =>
    simp only [interrupt_budget] at hhi
    push_cast at hhi
    have hb0 : (0 : Int) ≤ (interrupt_budget ops : Int) := Int.ofNat_nonneg _
    have hh0 : (0 : Int) ≤ (handler_bound op : Int) := Int.ofNat_nonneg _
    obtain ⟨k1, hk1⟩ := step_total e op k hon
    obtain ⟨d1, hd1, _, ha1⟩ := step_advances e op k k1 hk1 hlo (by omega)
    have hd1c : (d1 : Int) ≤ (handler_bound op : Int) := by exact_mod_cast hd1
    obtain ⟨ih1, ih2⟩ := ih k1 (by rw [ha1.2.2]; exact hon)
      (by rw [ha1.1]; omega) (by rw [ha1.1]; omega)
    have hmono : ∀ v ∈ observe e ops k1, k.ticks ≤ v := by
      intro v hv
      have := ih1 v hv
      rw [ha1.1] at this
      omega
    cases op <;> simp only [observe, hk1]
    case timer_ticks =>
      refine ⟨?_, List.Pairwise.cons hmono ih2⟩
      intro v hv
      rcases List.mem_cons.mp hv with h | h
      · rw [h]; exact le_refl _
      · exact hmono v h
    all_goals exact ⟨hmono, ih2⟩

/-- C8: over every sequence of `timer_ticks`, `timer_elapsed`, `timer_sleep`,
`timer_msleep` / `timer_usleep` / `timer_nsleep` and `timer_interrupt` started
at counter 0 (with fewer than 2^63 interrupts, so that the `int64_t` counter
does not overflow), every operation completes, `timer_interrupt` adds exactly
1 to the counter, an operation run in thread context without preemption
leaves it unchanged, the counter moves by exactly the number of handler runs,
and the values returned by successive `timer_ticks` calls never decrease. -/
theorem tick_counter_never_decreases (e : Env) (ops : List Op)
    (hb : interrupt_budget ops < 2 ^ 63) :
    (∃ k, exec e ops boot = some k ∧ k.ticks = (handler_runs k.trace : Int))
    ∧ (∀ pre op post k, ops = pre ++ op :: post → exec e pre boot = some k →
        ∃ k2, step e op k = some k2
          ∧ (op = Op.timer_interrupt → k2.ticks = k.ticks + 1)
          ∧ (op ≠ Op.timer_interrupt → preemptions op = 0 → k2.ticks = k.ticks)
          ∧ k2.ticks - k.ticks = (handler_runs k2.trace : Int) - (handler_runs k.trace : Int)
          ∧ k.ticks ≤ k2.ticks)
    ∧ List.Pairwise (fun a b => a ≤ b) (observe e ops boot) := by
  have hbc : ((interrupt_budget ops : Nat) : Int) < 2 ^ 63 := by exact_mod_cast hb
  have h0 : boot.ticks = 0 := rfl
  refine ⟨?_, ?_, (observe_sorted e ops boot rfl (by decide) (by rw [h0]; omega)).2⟩
  · obtain ⟨k, d, hk, _, a1, a2, _⟩ :=
      exec_advances e ops boot rfl (by decide) (by rw [h0]; omega)
    refine ⟨k, hk, ?_⟩
    have : handler_runs boot.trace = 0 := rfl
    rw [a1, a2, h0, this]
    push_cast
    omega
  · intro pre op post k hsplit hpre
    have hbud : interrupt_budget pre + handler_bound op ≤ interrupt_budget ops := by
      rw [hsplit, interrupt_budget_append]
      simp only [interrupt_budget]
      omega
    have hbudc : ((interrupt_budget pre : Nat) : Int) + (handler_bound op : Int)
        ≤ (interrupt_budget ops : Int) := by exact_mod_cast hbud
    have hh0 : (0 : Int) ≤ (handler_bound op : Int) := Int.ofNat_nonneg _
    obtain ⟨kp, d, hkp, hd, a1, a2, a3⟩ :=
      exec_advances e pre boot rfl (by decide) (by rw [h0]; omega)
    rw [hpre] at hkp
    injection hkp with hkp
    subst hkp
    have hdc : (d : Int) ≤ (interrupt_budget pre : Int) := by exact_mod_cast hd
    have hon : k.intr_on = true := by rw [a3]; rfl
    obtain ⟨k2, hk2⟩ := step_total e op k hon
    obtain ⟨d2, hd2, hint, b1, b2, _⟩ :=
      step_advances e op k k2 hk2 (by rw [a1, h0]; omega) (by rw [a1, h0]; omega)
    refine ⟨k2, hk2, ?_, ?_, ?_, ?_⟩
    · intro hop
      rw [b1, hint hop]
      rfl
    · intro hop hpz
      have : handler_bound op = 0 := by
        cases op <;> first | exact absurd rfl hop | exact hpz
      have : d2 = 0 := by omega
      rw [b1, this]
      simp
    · rw [b1, b2]
      push_cast
      omega
    · rw [b1]
      omega

/-- C8 on `sample_ops`: the two reads return 0 and 2. -/
theorem tick_counter_never_decreases_witness :
    interrupt_budget sample_ops < 2 ^ 63
    ∧ observe spec_env sample_ops boot = [0, 2]
    ∧ List.Pairwise (fun a b => a ≤ b) (observe spec_env sample_ops boot) :=
  ⟨by decide, by decide, (tick_counter_never_decreases spec_env sample_ops (by decide)).2.2⟩

end Pintos
